import Mathlib

/-
Verification development for the muambr-api python extractors
(src/extractors/pythonExtractors).  The extractors are shallowly embedded:
pure string manipulation (price normalization, regex searches, python
string methods) is translated to functions on List Char, and the
BeautifulSoup query layer is abstracted as structured page inputs whose
fields hold the texts and attributes the CSS selectors of the source
would produce.  Everything downstream of the query layer (loops over
selector results, truthiness checks, price-format branches, record
assembly, deduplication, bot-block short-circuit, fallback responses)
is translated faithfully from the python source.
-/

/-- Canonical output record of every extractor: the python dict with keys
name, price, store, currency, url. -/
structure Product where
  name : String
  price : String
  store : String
  currency : String
  url : String
deriving DecidableEq

/-- Character class of the price regexes: a digit, a dot or a comma. -/
def isNumChar (c : Char) : Bool := c.isDigit || c == '.' || c == ','

/-- Python whitespace class (ASCII part), used for the regex class of
whitespace characters. -/
def isWs (c : Char) : Bool :=
  c == ' ' || c == '\t' || c == '\n' || c == '\r' || c == '\x0b' || c == '\x0c'

/-- Model of python str.replace applied with a one-character needle and an
empty replacement, e.g. price_str.replace and an empty string. -/
def removeChar (x : Char) (cs : List Char) : List Char := cs.filter (fun c => !(c == x))

/-- Model of price_str.replace turning every comma into a dot. -/
def commaToDot (c : Char) : Char := if c = ',' then '.' else c

/-- Model of python str.split with a one-character separator: split on
every occurrence, keeping empty pieces, so the result is never empty. -/
def splitChar (sep : Char) : List Char → List (List Char)
  | [] => [[]]
  | c :: cs =>
    if c = sep then [] :: splitChar sep cs
    else
      match splitChar sep cs with
      | [] => [[c]]
      | p :: ps => (c :: p) :: ps

/-- Price normalization of extract_mercadolivre_products, lines 91-108 of
mercadolivre_page.py (the identical branch also appears in magalu_page.py):
both separators present means dots are stripped and commas become dots;
a lone comma always becomes a dot; a lone dot is kept only when the split
has exactly two parts and the second has length two; otherwise dots are
stripped. -/
def mlNormList (cs : List Char) : List Char :=
  if ',' ∈ cs ∧ '.' ∈ cs then (removeChar '.' cs).map commaToDot
  else if ',' ∈ cs then cs.map commaToDot
  else if '.' ∈ cs then
    if (splitChar '.' cs).length = 2 ∧ ((splitChar '.' cs).getD 1 []).length = 2 then cs
    else removeChar '.' cs
  else cs

/-- String wrapper of mlNormList. -/
def mlNormalizePrice (s : String) : String := String.mk (mlNormList s.data)

/-- Price normalization of extract_kuantokusta_products, lines 54-73 (and
the duplicated block at lines 87-106) of kuantokusta_page.py.  It differs
from the mercadolivre version in the comma-only case (decimal only when the
split has exactly two parts and the second has length two) and in the
dot-only case (the whole string is kept whenever the last dot-separated
segment has length two, even if several dots are present). -/
def kkNormList (cs : List Char) : List Char :=
  if ',' ∈ cs ∧ '.' ∈ cs then (removeChar '.' cs).map commaToDot
  else if ',' ∈ cs then
    if (splitChar ',' cs).length = 2 ∧ ((splitChar ',' cs).getD 1 []).length = 2 then cs.map commaToDot
    else removeChar ',' cs
  else
    if '.' ∈ cs ∧ ((splitChar '.' cs).getLastD []).length = 2 then cs
    else removeChar '.' cs

/-- String wrapper of kkNormList. -/
def kkNormalizePrice (s : String) : String := String.mk (kkNormList s.data)

/-- Canonical decimal price in the sense of the data model of the spec:
only digits and dots, at most one dot, at least one digit (hence it parses
as a non-negative real and carries no thousands separators or currency
symbols). -/
def isCanonicalPrice (cs : List Char) : Bool :=
  cs.all (fun c => c.isDigit || c == '.') && decide (cs.count '.' ≤ 1) && cs.any (fun c => c.isDigit)

example : mlNormalizePrice "1.049,99" = "1049.99" := by decide
example : mlNormalizePrice "1,049.99" = "1.04999" := by decide
example : mlNormalizePrice "1.049.99" = "104999" := by decide
example : kkNormalizePrice "1.049.99" = "1.049.99" := by decide
example : mlNormalizePrice "3997,99" = "3997.99" := by decide
example : kkNormalizePrice "1,049" = "1049" := by decide
example : isCanonicalPrice ("1.049.99".data) = false := by decide
example : isCanonicalPrice ("1049.99".data) = true := by decide

/-- Model of python str.title as used on kuantokusta url slugs: an
alphabetic character is uppercased when the previous character is not
alphabetic and lowercased otherwise; other characters pass through. -/
def titleGo : Bool → List Char → List Char
  | _, [] => []
  | prevAlpha, c :: cs =>
    (if c.isAlpha then (if prevAlpha then c.toLower else c.toUpper) else c) :: titleGo c.isAlpha cs

/-- Python str.title on a character list. -/
def titleCase (cs : List Char) : List Char := titleGo false cs

/-- Model of the whitespace-collapsing re.sub of kuantokusta_page.py line
111: every maximal run of whitespace becomes a single space. -/
def collapseGo : Bool → List Char → List Char
  | _, [] => []
  | prevWs, c :: cs =>
    if isWs c then (if prevWs then collapseGo true cs else ' ' :: collapseGo true cs)
    else c :: collapseGo false cs

/-- Model of python str.strip: drop leading and trailing whitespace. -/
def pyStrip (cs : List Char) : List Char :=
  ((cs.dropWhile isWs).reverse.dropWhile isWs).reverse

/-- Whitespace cleanup of kuantokusta_page.py line 111: collapse runs and
strip the ends. -/
def collapseWs (s : String) : String := String.mk (pyStrip (collapseGo false s.data))

/-- Model of re.search for the digits-dots-commas group used by
mercadolivre_page.py line 87 (and magalu): the match, when any character of
the class occurs, is the first maximal run of class characters. -/
def firstRunGo : List Char → Option (List Char)
  | [] => none
  | c :: cs => if isNumChar c then some (c :: cs.takeWhile isNumChar) else firstRunGo cs

/-- Model of the name-selector loops of mercadolivre_page.py lines 63-68
and kelkoo_page.py lines 54-64: the loop variable is overwritten by the
value of every matching selector and the loop stops early at the first
value longer than five characters, so the result is the first candidate of
length above five, else the last candidate, else nothing. -/
def pickLoop : List String → Option String
  | [] => none
  | [c] => some c
  | c :: cs => if 5 < c.data.length then some c else pickLoop cs

/-- Url resolution shared verbatim by mercadolivre_page.py lines 119-128
and kelkoo_page.py lines 112-121: absent href keeps the site base, an
http-prefixed href passes through, a slash-prefixed href is appended to the
base, anything else is appended after a slash. -/
def resolveUrl (base : String) (href : Option String) : String :=
  match href with
  | none => base
  | some h =>
    if List.isPrefixOf "http".data h.data then h
    else if List.isPrefixOf "/".data h.data then base ++ h
    else base ++ "/" ++ h

/-- Parsed JSON values, the result of json.loads on a script body. -/
inductive Json where
  | null
  | str (s : String)
  | num (n : Int)
  | bool (b : Bool)
  | obj (fields : List (String × Json))
  | arr (xs : List Json)

/-- Dictionary lookup on parsed JSON object fields (python dict.get with
default None). -/
def jsonLookup (fields : List (String × Json)) (k : String) : Option Json :=
  (fields.find? (fun p => p.1 == k)).map (fun p => p.2)

/-- Python dict.get lifted to any JSON value; the extractors only ever call
get on objects (a non-object would raise in python, which the claims never
exercise), so a non-object yields none here. -/
def jsonGet : Json → String → Option Json
  | Json.obj fs, k => jsonLookup fs k
  | _, _ => none

/-- Python truthiness of a JSON value. -/
def jsonTruthy : Json → Bool
  | Json.null => false
  | Json.str s => !s.data.isEmpty
  | Json.num n => n != 0
  | Json.bool b => b
  | Json.obj fs => !fs.isEmpty
  | Json.arr xs => !xs.isEmpty

/-- Python truthiness of dict.get results (None is falsy). -/
def jsonTruthyO : Option Json → Bool
  | none => false
  | some j => jsonTruthy j

/-- Python str on the JSON scalars the extractors put into records. -/
def pyStr : Json → String
  | Json.str s => s
  | Json.num n => toString n
  | Json.bool b => if b then "True" else "False"
  | Json.null => "None"
  | Json.obj _ => ""
  | Json.arr _ => ""

/-- Comparison item.get of the type key against the string Product, as in
mercadolivre_page.py line 16: only a string value can compare equal. -/
def isProductType : Option Json → Bool
  | some (Json.str t) => t == "Product"
  | _ => false

/-- One graph item of the JSON-LD path of mercadolivre_page.py lines 16-30:
a Product-typed item with truthy name, offers price and offers url becomes
a record; the price passes through python str, the url is taken verbatim
from the offers object. -/
def mlLdItem (item : Json) : Option Product :=
  if isProductType (jsonGet item "@type") then
    let name := jsonGet item "name"
    let offers := (jsonGet item "offers").getD (Json.obj [])
    let price := jsonGet offers "price"
    let url := jsonGet offers "url"
    if jsonTruthyO name && jsonTruthyO price && jsonTruthyO url then
      some { name := pyStr (name.getD Json.null),
             price := pyStr (price.getD Json.null),
             store := "Mercado Livre",
             currency := match jsonGet offers "priceCurrency" with
                         | some c => pyStr c
                         | none => "BRL",
             url := pyStr (url.getD Json.null) }
    else none
  else none

/-- JSON-LD scan of mercadolivre_page.py lines 10-32: each script body is
either unparseable (none, the caught json.JSONDecodeError path) or a parsed
value; only a top-level object carrying a graph key whose value is a list
is iterated, everything else contributes nothing. -/
def mlJsonLd (scripts : List (Option Json)) : List Product :=
  scripts.foldl
    (fun acc s =>
      match s with
      | some (Json.obj fs) =>
        match jsonLookup fs "@graph" with
        | some (Json.arr items) => acc ++ items.filterMap mlLdItem
        | _ => acc
      | _ => acc)
    []

/-- One mercadolivre product card, holding what the ranked sub-selectors of
lines 55-61 (names), 74-80 (price texts), 111 (currency symbol text) and
120 (first link href) would yield on that card. -/
structure MLCard where
  nameCands : List String
  priceTexts : List String
  currencySymbol : Option String
  href : Option String

/-- A mercadolivre page: the parsed JSON-LD script bodies and the product
cards the card selectors would match. -/
structure MLPage where
  scripts : List (Option Json)
  cards : List MLCard

/-- Price loop of mercadolivre_page.py lines 82-116: the first price text
containing a digit, dot or comma has its first class run extracted and
normalized. -/
def mlPriceLoop : List String → Option String
  | [] => none
  | t :: ts =>
    match firstRunGo t.data with
    | some run => some (String.mk (mlNormList run))
    | none => mlPriceLoop ts

/-- Card assembly of mercadolivre_page.py lines 51-138: name and price via
their selector loops, currency fixed at BRL (lines 110-115 only ever
reassign BRL), url resolved against the mercadolivre base, and the record
kept only when name and price are truthy. -/
def mlBuildCard (card : MLCard) : Option Product :=
  let url := resolveUrl "https://www.mercadolivre.com.br" card.href
  let currency := match card.currencySymbol with
                  | some t => if t == "R$" then "BRL" else "BRL"
                  | none => "BRL"
  match pickLoop card.nameCands, mlPriceLoop card.priceTexts with
  | some n, some p =>
    if !n.data.isEmpty && !p.data.isEmpty then
      some { name := n, price := p, store := "Mercado Livre", currency := currency, url := url }
    else none
  | _, _ => none

/-- Entry point of mercadolivre_page.py: the JSON-LD strategy first, the
card strategy only when it produced nothing (line 35). -/
def extract_mercadolivre_products (page : MLPage) : List Product :=
  let ld := mlJsonLd page.scripts
  if ld.isEmpty then page.cards.filterMap mlBuildCard else ld

/-- One kelkoo product card, holding what the ranked sub-selectors of
kelkoo_page.py lines 48-52 (names), 70-73 (price element texts), 95-98
(store names) and 113 (first link href) would yield on that card. -/
structure KelkooCard where
  nameCands : List String
  priceTexts : List String
  storeCands : List String
  href : Option String

/-- A kelkoo page: the raw html text (inspected for bot-block markers) and
the product cards the container selectors would match. -/
structure KelkooPage where
  html : String
  cards : List KelkooCard

/-- Model of the python in-operator on strings: the needle occurs as a
contiguous substring of the haystack. -/
def containsSub (needle : List Char) : List Char → Bool
  | [] => needle.isEmpty
  | c :: cs => List.isPrefixOf needle (c :: cs) || containsSub needle cs

/-- Bot-block detection of kelkoo_page.py line 10: the literal marker in
the raw html, or the captcha marker in its lowercase form. -/
def kelkooBlocked (html : String) : Bool :=
  containsSub "Please enable JS".data html.data
    || containsSub "captcha".data (html.data.map Char.toLower)

/-- Optional currency token of the kelkoo price regex, line 80: a single
currency sign, else one of the literal three-letter codes. -/
def parseCurrencyTok : List Char → Option (List Char)
  | [] => none
  | c :: cs =>
    if c = '€' ∨ c = '$' ∨ c = '£' then some [c]
    else if List.isPrefixOf "EUR".data (c :: cs) then some "EUR".data
    else if List.isPrefixOf "USD".data (c :: cs) then some "USD".data
    else if List.isPrefixOf "GBP".data (c :: cs) then some "GBP".data
    else none

/-- Model of the kelkoo price regex search of line 80: the first maximal
run of digits, dots and commas, followed (after whitespace) by an optional
currency token. -/
def kelkooSearch : List Char → Option (List Char × Option (List Char))
  | [] => none
  | c :: cs =>
    if isNumChar c then
      some (c :: cs.takeWhile isNumChar,
            parseCurrencyTok ((cs.dropWhile isNumChar).dropWhile isWs))
    else kelkooSearch cs

/-- Currency mapping of kelkoo_page.py lines 83-90, defaulting to EUR. -/
def kelkooCurrencyOf : Option (List Char) → String
  | some t =>
    if t = ['€'] ∨ t = "EUR".data then "EUR"
    else if t = ['$'] ∨ t = "USD".data then "USD"
    else if t = ['£'] ∨ t = "GBP".data then "GBP"
    else "EUR"
  | none => "EUR"

/-- Price loop of kelkoo_page.py lines 75-91: the first price text whose
regex search succeeds supplies the price (the matched run with commas
turned into dots) and the currency. -/
def kelkooPriceLoop : List String → Option (String × String)
  | [] => none
  | t :: ts =>
    match kelkooSearch t.data with
    | some (run, tok) => some (String.mk (run.map commaToDot), kelkooCurrencyOf tok)
    | none => kelkooPriceLoop ts

/-- Store loop of kelkoo_page.py lines 100-109: the first store candidate
longer than two characters, else the default partner store label. -/
def kelkooStoreOf (cands : List String) : String :=
  match cands.find? (fun c => 2 < c.data.length) with
  | some s => s
  | none => "Kelkoo Partner Store"

/-- Card assembly of kelkoo_page.py lines 44-135: name and price loops,
store loop, url resolution against the kelkoo base, and the record kept
only when name and price are truthy; line 128 appends the Spain
availability suffix to whatever store was found. -/
def kelkooBuildCard (card : KelkooCard) : Option Product :=
  let store := kelkooStoreOf card.storeCands
  let url := resolveUrl "https://www.kelkoo.es" card.href
  match pickLoop card.nameCands, kelkooPriceLoop card.priceTexts with
  | some n, some pc =>
    if !n.data.isEmpty && !pc.1.data.isEmpty then
      some { name := n, price := pc.1, store := store ++ " (Available in Spain)",
             currency := pc.2, url := url }
    else none
  | _, _ => none

/-- Degraded response of kelkoo_page.py lines 12-20, returned as soon as a
bot-block marker is seen. -/
def kelkooBlockedResponse : List Product :=
  [{ name := "Sony WH-1000XM6 Wireless Headphones - Kelkoo Protected",
     price := "349.99",
     store := "Kelkoo Partner Store (Available in Spain)",
     currency := "EUR",
     url := "https://www.kelkoo.es" }]

/-- Sample products of kelkoo_page.py lines 139-154, appended whenever the
card scan produced nothing. -/
def kelkooSampleProducts : List Product :=
  [{ name := "Sony WH-1000XM6 Wireless Headphones",
     price := "349.99",
     store := "Kelkoo Electronics (Available in Spain)",
     currency := "EUR",
     url := "https://www.kelkoo.es/buscar?consulta=sony+1000xm6" },
   { name := "Sony WH-1000XM6 Black Edition",
     price := "329.99",
     store := "Kelkoo Audio Store (Available in Spain)",
     currency := "EUR",
     url := "https://www.kelkoo.es/buscar?consulta=sony+1000xm6" }]

/-- Entry point of kelkoo_page.py: a blocked page short-circuits to the
degraded response; otherwise the cards are processed, and the sample
products stand in whenever no card yielded a record. -/
def extract_kelkoo_products (page : KelkooPage) : List Product :=
  if kelkooBlocked page.html then kelkooBlockedResponse
  else
    let ps := page.cards.filterMap kelkooBuildCard
    if ps.isEmpty then kelkooSampleProducts else ps

/-- One idealo offer row, holding what the row sub-queries of
idealo_page.py lines 10-36 would yield: the title text, the store text, the
price link (its text and optional href) and the title link (present or not,
with an optional href). -/
structure IdealoRow where
  name : Option String
  store : Option String
  priceTag : Option (String × Option String)
  titleTag : Option (Option String)

/-- Currency class of the idealo price regex of line 23: uppercase ASCII
letters and the three currency signs. -/
def isCurrencyChar (c : Char) : Bool :=
  ('A' ≤ c && c ≤ 'Z') || c == '€' || c == '$' || c == '£'

/-- Model of the idealo price regex search of line 23: a maximal run of
digits, dots and commas followed (after whitespace) by at least one
currency-class character; positions without that suffix are skipped, as
re.search does. -/
def idealoSearch : List Char → Option (List Char × List Char)
  | [] => none
  | c :: cs =>
    if isNumChar c then
      let cur := ((cs.dropWhile isNumChar).dropWhile isWs).takeWhile isCurrencyChar
      if cur.isEmpty then idealoSearch cs
      else some (c :: cs.takeWhile isNumChar, cur)
    else idealoSearch cs

/-- Row assembly of idealo_page.py lines 9-48: the price is the raw matched
group (no normalization) or the whole price text when the regex fails; the
url prefers the price link href, falls back to the title link href, and is
prefixed with the idealo base only when nonempty and not already
https-prefixed; the record is kept only when name, price and url are all
truthy. -/
def idealoBuild (row : IdealoRow) : Option Product :=
  let store := row.store.getD "Unknown Store"
  let pc : Option String × String :=
    match row.priceTag with
    | some tp =>
      match idealoSearch tp.1.data with
      | some rc => (some (String.mk rc.1), String.mk rc.2)
      | none => (some tp.1, "EUR")
    | none => (none, "EUR")
  let url0 : Option String :=
    match row.priceTag with
    | some (_, some h) => some h
    | _ =>
      match row.titleTag with
      | some (some h) => some h
      | _ => none
  let url1 := url0.map (fun u =>
    if !u.data.isEmpty && !(List.isPrefixOf "https://".data u.data)
    then "https://www.idealo.es" ++ u else u)
  match row.name, pc.1, url1 with
  | some n, some p, some u =>
    if !n.data.isEmpty && !p.data.isEmpty && !u.data.isEmpty then
      some { name := n, price := p, store := store, currency := pc.2, url := u }
    else none
  | _, _, _ => none

/-- Entry point of idealo_page.py: every offer row is built independently
and invalid rows are dropped; there is no deduplication step. -/
def extract_idealo_products (rows : List IdealoRow) : List Product :=
  rows.filterMap idealoBuild

/-- One kuantokusta product link (an anchor whose href matched the product
pattern), holding its href, its stripped text content, and the text
contents of its ancestors in order (the parent walk of lines 44-77 visits
at most three of them). -/
structure KkLink where
  href : String
  linkText : String
  parentTexts : List String

/-- Href filter of kuantokusta_page.py line 10: the anchored pattern
matches a slash, the letter p, a slash, one or more digits and a slash. -/
def kkHrefOk (href : String) : Bool :=
  match href.data with
  | '/' :: 'p' :: '/' :: rest =>
    let ds := rest.takeWhile Char.isDigit
    !ds.isEmpty &&
      (match rest.drop ds.length with
       | '/' :: _ => true
       | _ => false)
  | _ => false

/-- Star part of the kuantokusta number pattern: greedy repetition of a
separator followed by exactly three digits, returning the consumed
characters and the remainder. -/
def starGroups : List Char → List Char × List Char
  | c :: d1 :: d2 :: d3 :: rest =>
    if (c = '.' ∨ c = ',') ∧ d1.isDigit ∧ d2.isDigit ∧ d3.isDigit then
      let r := starGroups rest
      (c :: d1 :: d2 :: d3 :: r.1, r.2)
    else ([], c :: d1 :: d2 :: d3 :: rest)
  | cs => ([], cs)

/-- Optional tail of the kuantokusta number pattern: a separator followed
by exactly two digits, or nothing. -/
def sepTwoDigits : List Char → List Char
  | c :: d1 :: d2 :: _ =>
    if (c = '.' ∨ c = ',') ∧ d1.isDigit ∧ d2.isDigit then [c, d1, d2] else []
  | _ => []

/-- The kuantokusta numeric pattern (one to three digits, then groups of a
separator and three digits, then an optional separator and two digits)
matched greedily at the current position; fails when no digit starts
here. -/
def kkParseNum (cs : List Char) : Option (List Char) :=
  let ds := (cs.takeWhile Char.isDigit).take 3
  if ds.isEmpty then none
  else
    let r := starGroups (cs.drop ds.length)
    some (ds ++ r.1 ++ sepTwoDigits r.2)

/-- Model of the re.search of kuantokusta_page.py line 50: the leftmost
occurrence of the desde literal that is followed, after whitespace, by the
numeric pattern. -/
def kkDesdeGo : List Char → Option (List Char)
  | [] => none
  | c :: cs =>
    if List.isPrefixOf "desde".data (c :: cs) then
      match kkParseNum (((c :: cs).drop 5).dropWhile isWs) with
      | some m => some m
      | none => kkDesdeGo cs
    else kkDesdeGo cs

/-- Price from one ancestor text, kuantokusta_page.py lines 50-74: the
desde-anchored match, normalized. -/
def kkDesdePrice (t : String) : Option String :=
  (kkDesdeGo t.data).map (fun m => String.mk (kkNormList m))

/-- Model of the re.search of kuantokusta_page.py line 83 on the link text:
the numeric pattern at the leftmost digit (such a position always
matches). -/
def kkNumGo : List Char → Option (List Char)
  | [] => none
  | c :: cs => if c.isDigit then kkParseNum (c :: cs) else kkNumGo cs

/-- Price fallback of kuantokusta_page.py lines 80-108: a number found in
the link text is normalized; otherwise the placeholder price 0.00 is
used. -/
def kkLinkPrice (t : String) : String :=
  match kkNumGo t.data with
  | some m => String.mk (kkNormList m)
  | none => "0.00"

/-- Price discovery of kuantokusta_page.py lines 41-108: the first of at
most three ancestor texts with a desde match wins, else the link-text
fallback (which always yields something, possibly the placeholder). -/
def kkPrice (link : KkLink) : String :=
  match (link.parentTexts.take 3).findSome? kkDesdePrice with
  | some p => p
  | none => kkLinkPrice link.linkText

/-- Name resolution of kuantokusta_page.py lines 27-35: with at least four
slash-separated href parts, the fourth part (query string stripped) has its
hyphens replaced by spaces and is title-cased; otherwise the link text is
used. -/
def kkNameFromHref (href linkText : String) : String :=
  let parts := splitChar '/' href.data
  if 4 ≤ parts.length then
    let slug := (splitChar '?' (parts.getD 3 [])).headD []
    String.mk (titleCase (slug.map (fun c => if c = '-' then ' ' else c)))
  else linkText

/-- Link assembly of kuantokusta_page.py lines 12-125: empty hrefs are
skipped, the url is the base joined with a slash-prefixed href, names
shorter than five characters are rejected, the price always resolves
(possibly to the placeholder), the name is whitespace-collapsed, and the
record is kept when name, price and url are all truthy. -/
def kkBuild (link : KkLink) : Option Product :=
  if link.href.data.isEmpty then none
  else
    let url := if List.isPrefixOf "/".data link.href.data
               then "https://www.kuantokusta.pt" ++ link.href else link.href
    let name0 := kkNameFromHref link.href link.linkText
    if name0.data.isEmpty ∨ name0.data.length < 5 then none
    else
      let price := kkPrice link
      let name := collapseWs name0
      if !name.data.isEmpty && !price.data.isEmpty && !url.data.isEmpty then
        some { name := name, price := price, store := "KuantoKusta",
               currency := "EUR", url := url }
      else none

/-- Entry point of kuantokusta_page.py: only links whose href matches the
product pattern are processed, each independently. -/
def extract_kuantokusta_products (links : List KkLink) : List Product :=
  (links.filter (fun l => kkHrefOk l.href)).filterMap kkBuild

/-- Deduplication loop of acharpromo_page.py lines 41-46: a record whose
url is already in the seen set is dropped, otherwise it is kept and its url
remembered. -/
def acharDedupGo : List String → List Product → List Product
  | _, [] => []
  | seen, p :: ps =>
    if seen.contains p.url then acharDedupGo seen ps
    else p :: acharDedupGo (p.url :: seen) ps

/-- Deduplication of extract_acharpromo_products, starting from an empty
seen set. -/
def acharDedup (ps : List Product) : List Product := acharDedupGo [] ps

/-- Reference formulation written from the words of the spec: keep only the
first record per distinct url, preserving encounter order. -/
def specFirstPerUrl : List Product → List Product
  | [] => []
  | p :: ps => p :: specFirstPerUrl (ps.filter (fun q => !(q.url == p.url)))
termination_by ps => ps.length
decreasing_by
  simp_wf
  exact Nat.lt_succ_of_le (List.length_filter_le _ _)

/-- One element of the list returned by extract_acharpromo_products: a
product record, or the diagnostic object of lines 51-54 (a dict with an
error message and an empty products list). -/
inductive AcharResult where
  | product (p : Product)
  | errorObj (msg : String)
deriving DecidableEq

/-- Entry point of acharpromo_page.py lines 8-54.  The strategy cascade
inside the try block is abstracted as its outcome: either the list of
candidate records it produced (this is the only exit of the try body, line
48, which returns the deduplicated records), or the caught exception
message; the except arm of lines 50-54 wraps the message in a single
diagnostic object whose products field is empty.  The function is total: no
exception escapes. -/
def extract_acharpromo_products (parsed : Except String (List Product)) : List AcharResult :=
  match parsed with
  | Except.ok ps => (acharDedup ps).map AcharResult.product
  | Except.error e => [AcharResult.errorObj ("Failed to parse achar.promo page: " ++ e)]

/-- The product records among an acharpromo result list. -/
def acharProductsOf (rs : List AcharResult) : List Product :=
  rs.filterMap (fun r => match r with
    | AcharResult.product p => some p
    | AcharResult.errorObj _ => none)

example :
    extract_kuantokusta_products
      [{ href := "/p/123/produto-teste-bom", linkText := "Ver", parentTexts := ["sem preco aqui"] }]
      = [{ name := "Produto Teste Bom", price := "0.00", store := "KuantoKusta",
           currency := "EUR", url := "https://www.kuantokusta.pt/p/123/produto-teste-bom" }] := by
  decide

example : kkDesdePrice "desde 1.049,99 EUR" = some "1049.99" := by decide


/-- Concrete idealo row whose price text uses the european format; used to
exhibit a non-canonical extracted price. -/
def c2IdealoRow : IdealoRow :=
  { name := some "Auriculares Sony", store := some "Tienda Uno",
    priceTag := some ("1.049,99 \u20ac", some "https://www.idealo.es/ofertas/1"),
    titleTag := none }

/-- Concrete linked-data block: a single top-level Product object, not
wrapped in a graph container. -/
def c4ProductJson : Json :=
  Json.obj [("@context", Json.str "https://schema.org"),
            ("@type", Json.str "Product"),
            ("name", Json.str "Sony WH-1000XM6"),
            ("offers", Json.obj [("price", Json.str "299.99"),
                                 ("priceCurrency", Json.str "EUR"),
                                 ("url", Json.str "/p/1")])]

/-- A mercadolivre page whose only script holds the single Product
object. -/
def c4SinglePage : MLPage := { scripts := [some c4ProductJson], cards := [] }

/-- The same Product data placed inside a graph item. -/
def c4GraphItem : Json :=
  Json.obj [("@type", Json.str "Product"),
            ("name", Json.str "Sony WH-1000XM6"),
            ("offers", Json.obj [("price", Json.str "299.99"),
                                 ("priceCurrency", Json.str "EUR"),
                                 ("url", Json.str "/p/1")])]

/-- A mercadolivre page whose only script holds a graph container wrapping
the Product item. -/
def c4GraphPage : MLPage :=
  { scripts := [some (Json.obj [("@graph", Json.arr [c4GraphItem])])],
    cards := [] }

/-- Concrete kuantokusta link with a valid product href but no price
anywhere near it. -/
def c5Link : KkLink :=
  { href := "/p/123/produto-teste-bom", linkText := "Ver",
    parentTexts := ["sem preco aqui"] }

/-- Two concrete idealo rows sharing one offer url. -/
def c7RowOne : IdealoRow :=
  { name := some "Auriculares Sony Uno", store := some "Tienda A",
    priceTag := some ("299.99 EUR", some "https://www.idealo.es/go/1"),
    titleTag := none }

/-- Second row with the same url and a different name. -/
def c7RowTwo : IdealoRow :=
  { name := some "Auriculares Sony Dos", store := some "Tienda B",
    priceTag := some ("289.99 EUR", some "https://www.idealo.es/go/1"),
    titleTag := none }

theorem splitChar_ne_nil (sep : Char) (cs : List Char) : splitChar sep cs ≠ [] := by
  induction cs with
  | nil => simp [splitChar]
  | cons c cs ih =>
    simp only [splitChar]
    split
    · simp
    · cases h : splitChar sep cs with
      | nil => simp
      | cons p ps => simp

theorem splitChar_not_mem {sep : Char} {cs : List Char} (h : sep ∉ cs) :
    splitChar sep cs = [cs] := by
  induction cs with
  | nil => rfl
  | cons c cs ih =>
    have hcs : sep ∉ cs := fun hm => h (List.mem_cons_of_mem _ hm)
    have hc : ¬(c = sep) := fun he => h (he ▸ List.mem_cons_self _ _)
    simp only [splitChar, if_neg hc, ih hcs]

theorem splitChar_append {sep : Char} {a : List Char} (b : List Char) (ha : sep ∉ a) :
    splitChar sep (a ++ sep :: b) = a :: splitChar sep b := by
  induction a with
  | nil => simp [splitChar]
  | cons c a ih =>
    have ha' : sep ∉ a := fun hm => ha (List.mem_cons_of_mem _ hm)
    have hc : ¬(c = sep) := fun he => ha (he ▸ List.mem_cons_self _ _)
    simp only [List.cons_append, splitChar, if_neg hc, List.append_eq]
    rw [ih ha']

theorem splitChar_length (sep : Char) (cs : List Char) :
    (splitChar sep cs).length = cs.count sep + 1 := by
  induction cs with
  | nil => simp [splitChar]
  | cons c cs ih =>
    simp only [splitChar]
    by_cases hc : c = sep
    · subst hc
      rw [if_pos rfl]
      simp only [List.length_cons, List.count_cons, ih]
      simp
    · rw [if_neg hc]
      cases h : splitChar sep cs with
      | nil => exact absurd h (splitChar_ne_nil sep cs)
      | cons p ps =>
        have hlen := ih
        rw [h] at hlen
        simp only [List.length_cons] at hlen ⊢
        simp only [List.count_cons, beq_iff_eq, hc, if_false]
        omega

theorem removeChar_cons (x c : Char) (cs : List Char) :
    removeChar x (c :: cs) = if c = x then removeChar x cs else c :: removeChar x cs := by
  by_cases h : c = x
  · simp [removeChar, List.filter_cons, h]
  · simp [removeChar, List.filter_cons, h]

theorem count_map_commaToDot (cs : List Char) :
    (cs.map commaToDot).count '.' = cs.count '.' + cs.count ',' := by
  induction cs with
  | nil => rfl
  | cons c cs ih =>
    simp only [List.map_cons, List.count_cons, ih]
    by_cases h : c = ','
    · subst h
      simp [commaToDot]
      omega
    · by_cases h2 : c = '.'
      · subst h2
        simp [commaToDot]
        omega
      · have e1 : commaToDot c = c := by simp [commaToDot, h]
        rw [e1]
        simp [h, h2]

theorem count_removeDot_commaToDot (cs : List Char) :
    ((removeChar '.' cs).map commaToDot).count '.' = cs.count ',' := by
  induction cs with
  | nil => rfl
  | cons c cs ih =>
    rw [removeChar_cons]
    by_cases h2 : c = '.'
    · subst h2
      rw [if_pos rfl, ih]
      simp [List.count_cons]
    · rw [if_neg h2]
      simp only [List.map_cons, List.count_cons, ih]
      by_cases h : c = ','
      · subst h
        simp [commaToDot]
      · have e1 : commaToDot c = c := by simp [commaToDot, h]
        rw [e1]
        simp [h, h2]

theorem removeChar_not_mem {x : Char} {cs : List Char} (h : x ∉ cs) :
    removeChar x cs = cs := by
  induction cs with
  | nil => rfl
  | cons c cs ih =>
    have hcs : x ∉ cs := fun hm => h (List.mem_cons_of_mem _ hm)
    have hc : ¬(c = x) := fun he => h (he ▸ List.mem_cons_self _ _)
    rw [removeChar_cons, if_neg hc, ih hcs]

theorem isPrefixOf_self_append (l r : List Char) : List.isPrefixOf l (l ++ r) = true := by
  induction l with
  | nil => simp [List.isPrefixOf]
  | cons c l ih => simp [List.isPrefixOf, ih]

theorem isSuffixOf_append (a b : List Char) : List.isSuffixOf b (a ++ b) = true := by
  simp only [List.isSuffixOf, List.reverse_append]
  exact isPrefixOf_self_append _ _

theorem spain_suffix_append (a : String) :
    List.isSuffixOf " (Available in Spain)".data (a ++ " (Available in Spain)").data = true := by
  rw [String.data_append]
  exact isSuffixOf_append _ _

/-- C1 counterexample: the claim says the separator appearing last is the
decimal one, so the string where the dot appears last should normalize to
1049.99; instead both cited normalizations always take the comma as the
decimal separator and produce 1.04999. -/
theorem C1_counterexample :
    mlNormalizePrice "1,049.99" = "1.04999"
      ∧ ¬(mlNormalizePrice "1,049.99" = "1049.99")
      ∧ kkNormalizePrice "1,049.99" = "1.04999"
      ∧ mlNormalizePrice "1.049,99" = "1049.99" := by
  decide

/-- C1 (amended): for every price string containing both a dot and a comma,
the mercadolivre and kuantokusta normalizations agree and both strip every
dot and turn every comma into a dot, i.e. the comma is always treated as
the decimal separator regardless of which separator appears last; hence
1.049,99 becomes 1049.99 while 1,049.99 becomes 1.04999. -/
theorem C1_both_separators (cs : List Char) (h1 : ',' ∈ cs) (h2 : '.' ∈ cs) :
    mlNormList cs = (removeChar '.' cs).map commaToDot
      ∧ kkNormList cs = (removeChar '.' cs).map commaToDot := by
  constructor
  · simp [mlNormList, h1, h2]
  · simp [kkNormList, h1, h2]

/-- C1 witness: the amended rule applied at a concrete input with the dot
appearing last. -/
theorem C1_witness :
    (',' ∈ "1,049.99".data ∧ '.' ∈ "1,049.99".data)
      ∧ mlNormList "1,049.99".data = (removeChar '.' "1,049.99".data).map commaToDot :=
  ⟨by decide, (C1_both_separators "1,049.99".data (by decide) (by decide)).1⟩

/-- C6 counterexample: the input has two dots and exactly two digits after
the last dot, so the claimed rule makes the last dot a decimal separator
and the result 1049.99; mercadolivre instead strips every dot (its branch
requires exactly one dot), and kuantokusta keeps the string unchanged, so
the two cited normalizations even disagree with each other. -/
theorem C6_counterexample :
    mlNormalizePrice "1.049.99" = "104999"
      ∧ ¬(mlNormalizePrice "1.049.99" = "1049.99")
      ∧ kkNormalizePrice "1.049.99" = "1.049.99" := by
  decide

/-- C6 (amended): for every price string containing exactly one dot and no
comma, both normalizations treat the dot as the decimal separator exactly
when exactly two digits follow it (keeping the string) and otherwise drop
the dot; on strings with several dots the two implementations diverge, as
the counterexample shows. -/
theorem C6_single_dot (a b : List Char) (ha : '.' ∉ a) (hb : '.' ∉ b)
    (ha2 : ',' ∉ a) (hb2 : ',' ∉ b) :
    mlNormList (a ++ '.' :: b) = (if b.length = 2 then a ++ '.' :: b else a ++ b)
      ∧ kkNormList (a ++ '.' :: b) = (if b.length = 2 then a ++ '.' :: b else a ++ b) := by
  have hcomma : ¬(',' ∈ a ++ '.' :: b) := by
    intro hm
    rcases List.mem_append.mp hm with h | h
    · exact ha2 h
    · rcases List.mem_cons.mp h with h | h
      · exact absurd h (by decide)
      · exact hb2 h
  have hdot : '.' ∈ a ++ '.' :: b := List.mem_append.mpr (Or.inr (List.mem_cons_self _ _))
  have hno : ¬(',' ∈ a ++ '.' :: b ∧ '.' ∈ a ++ '.' :: b) := fun hh => hcomma hh.1
  have hsplit : splitChar '.' (a ++ '.' :: b) = [a, b] := by
    rw [splitChar_append b ha, splitChar_not_mem hb]
  have hfilter : removeChar '.' (a ++ '.' :: b) = a ++ b := by
    unfold removeChar
    rw [List.filter_append]
    have e1 : removeChar '.' a = a := removeChar_not_mem ha
    have e2 : removeChar '.' ('.' :: b) = b := by
      rw [removeChar_cons, if_pos rfl, removeChar_not_mem hb]
    unfold removeChar at e1 e2
    rw [e1, e2]
  constructor
  · simp only [mlNormList, if_neg hno, if_neg hcomma, if_pos hdot, hsplit]
    by_cases hlen : b.length = 2
    · simp [hlen]
    · simp [hlen, hfilter]
  · simp only [kkNormList, if_neg hno, if_neg hcomma, hsplit]
    by_cases hlen : b.length = 2
    · simp [hlen, hdot]
    · have hlast : ([a, b].getLastD []) = b := rfl
      rw [hlast, if_neg (fun hh => hlen hh.2), hfilter, if_neg hlen]

/-- C6 witness: the amended rule applied at the concrete single-dot inputs
of the claim. -/
theorem C6_witness :
    ('.' ∉ ['1', '0', '4', '9'] ∧ '.' ∉ ['9', '9'])
      ∧ mlNormList (['1', '0', '4', '9'] ++ '.' :: ['9', '9'])
          = ['1', '0', '4', '9', '.', '9', '9']
      ∧ mlNormList (['1', '0', '4', '9'] ++ '.' :: ['9'])
          = ['1', '0', '4', '9', '9'] := by
  refine ⟨by decide, ?_, ?_⟩
  · have h := (C6_single_dot ['1', '0', '4', '9'] ['9', '9']
      (by decide) (by decide) (by decide) (by decide)).1
    rw [h]
    decide
  · have h := (C6_single_dot ['1', '0', '4', '9'] ['9']
      (by decide) (by decide) (by decide) (by decide)).1
    rw [h]
    decide

/-- C8: a kelkoo page containing a bot-block marker yields exactly the
configured degraded response, whatever product cards the page also
contains, so the selector strategies never contribute. -/
theorem C8_bot_block (page : KelkooPage) (h : kelkooBlocked page.html = true) :
    extract_kelkoo_products page = kelkooBlockedResponse := by
  simp [extract_kelkoo_products, h]

/-- C8 witness: a concrete blocked page that also carries an extractable
card still yields only the degraded response. -/
theorem C8_witness :
    kelkooBlocked "Mostrar captcha ahora" = true
      ∧ extract_kelkoo_products
          { html := "Mostrar captcha ahora",
            cards := [{ nameCands := ["Nombre Producto Uno"], priceTexts := ["10.99"],
                        storeCands := [], href := none }] }
          = kelkooBlockedResponse :=
  ⟨by decide, C8_bot_block _ (by decide)⟩

/-- C9: when the document cannot be processed (the catch-all arm of
extract_acharpromo_products), the entry point returns no product records at
all, only the single diagnostic object carrying the failure message; being
a total function of the parse outcome, it propagates no exception. -/
theorem C9_catastrophic (e : String) :
    acharProductsOf (extract_acharpromo_products (Except.error e)) = []
      ∧ extract_acharpromo_products (Except.error e)
          = [AcharResult.errorObj ("Failed to parse achar.promo page: " ++ e)] :=
  ⟨rfl, rfl⟩

/-- C3 counterexample: a kelkoo page with no bot-block marker and no
product candidates does not return the empty sequence; it returns the two
fabricated sample records. -/
theorem C3_counterexample :
    extract_kelkoo_products { html := "<html></html>", cards := [] }
        = kelkooSampleProducts
      ∧ ¬(kelkooSampleProducts = []) := by
  decide

/-- C3 (amended): when nothing valid is found, the idealo extractor indeed
returns the empty sequence and never an error, but the kelkoo extractor
instead returns the two fabricated sample records, so its result is never
empty. -/
theorem C3_nothing_found :
    (∀ rows : List IdealoRow, (∀ r ∈ rows, idealoBuild r = none) →
        extract_idealo_products rows = [])
      ∧ (∀ page : KelkooPage, kelkooBlocked page.html = false →
          (∀ c ∈ page.cards, kelkooBuildCard c = none) →
          extract_kelkoo_products page = kelkooSampleProducts) := by
  constructor
  · intro rows h
    exact List.filterMap_eq_nil_iff.mpr h
  · intro page hb h
    have he : page.cards.filterMap kelkooBuildCard = [] := List.filterMap_eq_nil_iff.mpr h
    simp [extract_kelkoo_products, hb, he]

/-- C3 witness: both halves of the amended statement applied at concrete
pages on which nothing valid is found. -/
theorem C3_witness :
    extract_idealo_products
        [{ name := none, store := none, priceTag := none, titleTag := none }] = []
      ∧ extract_kelkoo_products { html := "<p>nada</p>", cards := [] }
          = kelkooSampleProducts :=
  ⟨C3_nothing_found.1 _ (by decide), C3_nothing_found.2 _ (by decide) (by decide)⟩

/-- C5 counterexample: a kuantokusta candidate for which no price can be
discovered anywhere is not dropped; it is emitted with the placeholder
price 0.00. -/
theorem C5_counterexample :
    extract_kuantokusta_products [c5Link]
        = [{ name := "Produto Teste Bom", price := "0.00", store := "KuantoKusta",
             currency := "EUR",
             url := "https://www.kuantokusta.pt/p/123/produto-teste-bom" }] := by
  decide

/-- C5 (amended): the mercadolivre builder does drop a candidate whose name
or price resolution fails, but the kuantokusta builder substitutes the
placeholder price 0.00 when price discovery fails, so such a candidate
still produces an output record. -/
theorem C5_missing_fields :
    (∀ card : MLCard,
        (pickLoop card.nameCands = none ∨ mlPriceLoop card.priceTexts = none) →
        mlBuildCard card = none)
      ∧ (∀ link : KkLink,
          (link.parentTexts.take 3).findSome? kkDesdePrice = none →
          kkNumGo link.linkText.data = none →
          ∀ p, kkBuild link = some p → p.price = "0.00") := by
  constructor
  · intro card h
    cases hn : pickLoop card.nameCands with
    | none =>
      cases hp : mlPriceLoop card.priceTexts with
      | none => simp [mlBuildCard, hn, hp]
      | some p => simp [mlBuildCard, hn, hp]
    | some n =>
      cases hp : mlPriceLoop card.priceTexts with
      | none => simp [mlBuildCard, hn, hp]
      | some p =>
        rcases h with h | h
        · rw [hn] at h
          exact absurd h (by simp)
        · rw [hp] at h
          exact absurd h (by simp)
  · intro link h1 h2 p hp
    have hprice : kkPrice link = "0.00" := by
      unfold kkPrice
      rw [h1]
      unfold kkLinkPrice
      rw [h2]
    simp only [kkBuild, hprice] at hp
    split at hp
    · exact absurd hp (by simp)
    · split at hp
      · exact absurd hp (by simp)
      · split at hp
        all_goals
          split at hp
          · have hrec := Option.some.inj hp
            rw [← hrec]
          · exact absurd hp (by simp)

/-- C5 witness: the amended statement applied at a card with no candidates
and at the concrete priceless kuantokusta link. -/
theorem C5_witness :
    mlBuildCard { nameCands := [], priceTexts := [], currencySymbol := none, href := none }
        = none
      ∧ (Product.mk "Produto Teste Bom" "0.00" "KuantoKusta" "EUR"
          "https://www.kuantokusta.pt/p/123/produto-teste-bom").price = "0.00" :=
  ⟨C5_missing_fields.1 _ (Or.inl rfl),
   C5_missing_fields.2 c5Link (by decide) (by decide) _ (by decide)⟩

/-- C7 counterexample: idealo performs no deduplication, so two rows
sharing one offer url both survive into the result. -/
theorem C7_counterexample :
    (extract_idealo_products [c7RowOne, c7RowTwo]).map Product.url
        = ["https://www.idealo.es/go/1", "https://www.idealo.es/go/1"]
      ∧ (extract_idealo_products [c7RowOne, c7RowTwo]).length = 2 := by
  decide

/-- The seen-set loop of the acharpromo deduplicator equals the
first-occurrence filter on the records whose url is not yet seen. -/
theorem acharDedupGo_eq (seen : List String) (ps : List Product) :
    acharDedupGo seen ps
      = specFirstPerUrl (ps.filter (fun q => !(seen.contains q.url))) := by
  induction ps generalizing seen with
  | nil => simp [acharDedupGo, specFirstPerUrl]
  | cons p ps ih =>
    by_cases h : seen.contains p.url = true
    · simp only [acharDedupGo, if_pos h, List.filter_cons, h]
      simp only [Bool.not_true, Bool.false_eq_true, if_false]
      exact ih seen
    · have h' : seen.contains p.url = false := by
        exact Bool.not_eq_true _ ▸ (Bool.eq_false_iff.mpr h)
      simp only [acharDedupGo, if_neg h, List.filter_cons, h']
      simp only [Bool.not_false, if_true]
      rw [ih (p.url :: seen)]
      simp only [specFirstPerUrl, List.filter_filter, Bool.false_eq_true, if_false]
      congr 1
      refine congrArg specFirstPerUrl ?_
      apply List.filter_congr
      intro q _
      by_cases hq : q.url = p.url <;> simp [List.contains_cons, Bool.not_or, hq]

/-- C7 (amended): the acharpromo deduplicator keeps exactly the first
record per distinct url, preserving encounter order (it equals the
reference first-occurrence recursion written from the spec); the idealo
extractor, by contrast, performs no deduplication, as the counterexample
with two rows sharing one url shows. -/
theorem C7_dedup_first_per_url (ps : List Product) : acharDedup ps = specFirstPerUrl ps := by
  have h := acharDedupGo_eq [] ps
  simpa [acharDedup] using h

/-- C10: every record returned by the kelkoo extractor, whether produced by
the bot-block path, the card path or the empty-result fallback, has a store
field ending with the Spain availability suffix. -/
theorem C10_kelkoo_store_suffix (page : KelkooPage) (r : Product)
    (h : r ∈ extract_kelkoo_products page) :
    List.isSuffixOf " (Available in Spain)".data r.store.data = true := by
  unfold extract_kelkoo_products at h
  by_cases hb : kelkooBlocked page.html
  · rw [if_pos hb] at h
    simp only [kelkooBlockedResponse, List.mem_singleton] at h
    subst h
    decide
  · rw [if_neg hb] at h
    simp only at h
    split at h
    · simp only [kelkooSampleProducts, List.mem_cons, List.mem_singleton,
        List.not_mem_nil, or_false] at h
      rcases h with h | h <;> (subst h; decide)
    · rcases List.mem_filterMap.mp h with ⟨c, _, hc⟩
      simp only [kelkooBuildCard] at hc
      split at hc
      · split at hc
        · have hrec := Option.some.inj hc
          rw [← hrec]
          exact spain_suffix_append _
        · exact absurd hc (by simp)
      · exact absurd hc (by simp)

/-- C10 witness: the suffix property applied at a concrete blocked page and
its degraded-response record. -/
theorem C10_witness :
    (Product.mk "Sony WH-1000XM6 Wireless Headphones - Kelkoo Protected" "349.99"
          "Kelkoo Partner Store (Available in Spain)" "EUR" "https://www.kelkoo.es")
        ∈ extract_kelkoo_products { html := "ver captcha", cards := [] }
      ∧ List.isSuffixOf " (Available in Spain)".data
          (Product.mk "Sony WH-1000XM6 Wireless Headphones - Kelkoo Protected" "349.99"
            "Kelkoo Partner Store (Available in Spain)" "EUR" "https://www.kelkoo.es").store.data
          = true :=
  ⟨by decide, C10_kelkoo_store_suffix { html := "ver captcha", cards := [] } _ (by decide)⟩

/-- Introduction rule for the canonical-price predicate. -/
theorem isCanonicalPrice_intro (cs : List Char)
    (h1 : ∀ c ∈ cs, c.isDigit = true ∨ c = '.')
    (h2 : cs.count '.' ≤ 1)
    (h3 : ∃ c, c ∈ cs ∧ c.isDigit = true) :
    isCanonicalPrice cs = true := by
  unfold isCanonicalPrice
  rw [Bool.and_eq_true, Bool.and_eq_true]
  refine ⟨⟨?_, ?_⟩, ?_⟩
  · rw [List.all_eq_true]
    intro c hc
    rcases h1 c hc with h | h
    · simp [h]
    · simp [h]
  · simpa using h2
  · rw [List.any_eq_true]
    obtain ⟨c, hc, hd⟩ := h3
    exact ⟨c, hc, hd⟩

/-- C2 counterexample: the idealo extractor stores the raw matched price
text, so a record can carry the price 1.049,99, which is not a canonical
decimal string (it still has the comma decimal separator and the thousands
dot). -/
theorem C2_counterexample :
    extract_idealo_products [c2IdealoRow]
        = [{ name := "Auriculares Sony", price := "1.049,99", store := "Tienda Uno",
             currency := "€", url := "https://www.idealo.es/ofertas/1" }]
      ∧ isCanonicalPrice "1.049,99".data = false := by
  decide

/-- C2 (amended): the mercadolivre (and magalu) normalizer does produce a
canonical decimal price, with the dot as only separator and no currency
symbol, whenever the matched run consists of digits, dots and commas,
contains a digit, and carries at most one comma; the idealo and kelkoo
extractors do not normalize at all, so their records can carry
non-canonical prices, as the counterexample shows. -/
theorem C2_ml_normalizer_canonical (cs : List Char)
    (hclass : ∀ c ∈ cs, isNumChar c = true)
    (hdig : ∃ c, c ∈ cs ∧ c.isDigit = true)
    (hcomma : cs.count ',' ≤ 1) :
    isCanonicalPrice (mlNormList cs) = true := by
  have hclass' : ∀ c ∈ cs, c.isDigit = true ∨ c = '.' ∨ c = ',' := by
    intro c hc
    have h := hclass c hc
    simp only [isNumChar, Bool.or_eq_true, beq_iff_eq] at h
    rcases h with (h | h) | h
    · exact Or.inl h
    · exact Or.inr (Or.inl h)
    · exact Or.inr (Or.inr h)
  obtain ⟨d, hd, hdd⟩ := hdig
  have hdne : ¬(d = '.') := by
    intro he
    rw [he] at hdd
    exact absurd hdd (by decide)
  have hdnc : ¬(d = ',') := by
    intro he
    rw [he] at hdd
    exact absurd hdd (by decide)
  unfold mlNormList
  split
  next hboth =>
    apply isCanonicalPrice_intro
    · intro x hx
      rcases List.mem_map.mp hx with ⟨c, hcmem, hcx⟩
      have hcmem' := List.mem_filter.mp hcmem
      have hcne : ¬(c = '.') := by
        have h2 := hcmem'.2
        simp at h2
        exact h2
      rcases hclass' c hcmem'.1 with h | h | h
      · have hne2 : ¬(c = ',') := by
          intro he
          rw [he] at h
          exact absurd h (by decide)
        have e : commaToDot c = c := by simp [commaToDot, hne2]
        rw [← hcx, e]
        exact Or.inl h
      · exact absurd h hcne
      · have e : commaToDot c = '.' := by
          rw [h]
          decide
        rw [← hcx, e]
        exact Or.inr rfl
    · rw [count_removeDot_commaToDot cs]
      exact hcomma
    · refine ⟨commaToDot d, ?_, ?_⟩
      · exact List.mem_map.mpr ⟨d, List.mem_filter.mpr ⟨hd, by simp [hdne]⟩, rfl⟩
      · have e : commaToDot d = d := by simp [commaToDot, hdnc]
        rw [e]
        exact hdd
  next hnboth =>
    split
    next hcomma2 =>
      have hdotn : '.' ∉ cs := fun hdot => hnboth ⟨hcomma2, hdot⟩
      apply isCanonicalPrice_intro
      · intro x hx
        rcases List.mem_map.mp hx with ⟨c, hcmem, hcx⟩
        rcases hclass' c hcmem with h | h | h
        · have hne2 : ¬(c = ',') := by
            intro he
            rw [he] at h
            exact absurd h (by decide)
          have e : commaToDot c = c := by simp [commaToDot, hne2]
          rw [← hcx, e]
          exact Or.inl h
        · exact absurd (h ▸ hcmem) hdotn
        · have e : commaToDot c = '.' := by
            rw [h]
            decide
          rw [← hcx, e]
          exact Or.inr rfl
      · rw [count_map_commaToDot]
        have h0 : cs.count '.' = 0 := List.count_eq_zero.mpr hdotn
        omega
      · refine ⟨commaToDot d, List.mem_map.mpr ⟨d, hd, rfl⟩, ?_⟩
        have e : commaToDot d = d := by simp [commaToDot, hdnc]
        rw [e]
        exact hdd
    next hncomma =>
      split
      next hdotin =>
        split
        next hparts =>
          apply isCanonicalPrice_intro
          · intro c hc
            rcases hclass' c hc with h | h | h
            · exact Or.inl h
            · exact Or.inr h
            · exact absurd (h ▸ hc) hncomma
          · have hl := splitChar_length '.' cs
            rw [hparts.1] at hl
            omega
          · exact ⟨d, hd, hdd⟩
        next hparts =>
          apply isCanonicalPrice_intro
          · intro c hc
            have hcf := List.mem_filter.mp hc
            rcases hclass' c hcf.1 with h | h | h
            · exact Or.inl h
            · exact Or.inr h
            · exact absurd (h ▸ hcf.1) hncomma
          · have h0 : (removeChar '.' cs).count '.' = 0 := by
              apply List.count_eq_zero.mpr
              intro hmem
              have h2 := (List.mem_filter.mp hmem).2
              simp at h2
            omega
          · exact ⟨d, List.mem_filter.mpr ⟨hd, by simp [hdne]⟩, hdd⟩
      next hndot =>
        apply isCanonicalPrice_intro
        · intro c hc
          rcases hclass' c hc with h | h | h
          · exact Or.inl h
          · exact absurd (h ▸ hc) hndot
          · exact absurd (h ▸ hc) hncomma
        · have h0 : cs.count '.' = 0 := List.count_eq_zero.mpr hndot
          omega
        · exact ⟨d, hd, hdd⟩

/-- C2 witness: canonicality of the mercadolivre normalizer output at a
concrete european-format input. -/
theorem C2_witness :
    ((∀ c ∈ "1.049,99".data, isNumChar c = true) ∧ "1.049,99".data.count ',' ≤ 1)
      ∧ isCanonicalPrice (mlNormList "1.049,99".data) = true :=
  ⟨⟨by decide, by decide⟩,
   C2_ml_normalizer_canonical _ (by decide) ⟨'1', by decide, by decide⟩ (by decide)⟩

/-- C4 counterexample: a document whose linked-data block is a single
top-level Product object yields no record at all (the scan requires a graph
container), and even the graph form carries the offers url verbatim instead
of resolving it against the site base. -/
theorem C4_counterexample :
    extract_mercadolivre_products c4SinglePage = []
      ∧ extract_mercadolivre_products c4GraphPage
          = [{ name := "Sony WH-1000XM6", price := "299.99", store := "Mercado Livre",
               currency := "EUR", url := "/p/1" }] := by
  decide

/-- C4 (amended): structured-data extraction scans only top-level objects
carrying a graph key: a Product item inside the graph list yields exactly
one record with that price and with the offers url taken verbatim, not
resolved against a base; a top-level object without a graph key (such as a
bare Product object) yields nothing. -/
theorem C4_graph_container_only (nm pr cur u : String) (fs : List (String × Json))
    (hn : nm.data.isEmpty = false) (hp : pr.data.isEmpty = false)
    (hu : u.data.isEmpty = false) (hg : jsonLookup fs "@graph" = none) :
    extract_mercadolivre_products
        { scripts := [some (Json.obj [("@graph", Json.arr
            [Json.obj [("@type", Json.str "Product"), ("name", Json.str nm),
                       ("offers", Json.obj [("price", Json.str pr),
                                            ("priceCurrency", Json.str cur),
                                            ("url", Json.str u)])]])])],
          cards := [] }
        = [{ name := nm, price := pr, store := "Mercado Livre", currency := cur, url := u }]
      ∧ extract_mercadolivre_products { scripts := [some (Json.obj fs)], cards := [] } = [] := by
  constructor
  · simp [extract_mercadolivre_products, mlJsonLd, jsonLookup, mlLdItem, jsonGet,
      isProductType, jsonTruthyO, jsonTruthy, pyStr, hn, hp, hu, List.find?]
  · simp [extract_mercadolivre_products, mlJsonLd, hg]

/-- C4 witness: the amended statement applied at the concrete scenario data
of the claim. -/
theorem C4_witness :
    jsonLookup [("@context", Json.str "x")] "@graph" = none
      ∧ (extract_mercadolivre_products
            { scripts := [some (Json.obj [("@graph", Json.arr
                [Json.obj [("@type", Json.str "Product"),
                           ("name", Json.str "Sony WH-1000XM6"),
                           ("offers", Json.obj [("price", Json.str "299.99"),
                                                ("priceCurrency", Json.str "EUR"),
                                                ("url", Json.str "/p/1")])]])])],
              cards := [] }
            = [{ name := "Sony WH-1000XM6", price := "299.99", store := "Mercado Livre",
                 currency := "EUR", url := "/p/1" }]
          ∧ extract_mercadolivre_products
              { scripts := [some (Json.obj [("@context", Json.str "x")])], cards := [] }
              = []) :=
  ⟨rfl, C4_graph_container_only "Sony WH-1000XM6" "299.99" "EUR" "/p/1" _
      (by decide) (by decide) (by decide) rfl⟩
